import Mathlib

set_option maxRecDepth 8192

/-!
Verification of the search orchestration and result-normalization layer of
an MCP server (`mcp_server.py`): query-URL building, result normalization,
progress reporting, the database catalog, and the diagnostic endpoints.

Python strings are modelled at the byte level, as lists over `Byte := Fin 256`
standing for their UTF-8 byte sequences, so that percent-encoding — which
operates on UTF-8 bytes — is modelled exactly.
-/

abbrev Byte := Fin 256

/-- The UTF-8-agnostic byte view of an ASCII string literal
(every character of the literals used here is ASCII, so one char = one byte). -/
def bytesOfString (s : String) : List Byte :=
  s.data.map (fun c => Fin.ofNat c.toNat)

/-- The bytes Python's `urllib.parse` quoter never percent-encodes
(`_ALWAYS_SAFE`): ASCII letters, digits and `_.-~`. -/
def alwaysSafe (b : Byte) : Bool :=
  (48 ≤ b.val && b.val ≤ 57) || (65 ≤ b.val && b.val ≤ 90) ||
  (97 ≤ b.val && b.val ≤ 122) || b.val == 95 || b.val == 46 ||
  b.val == 45 || b.val == 126

/-- Upper-case hexadecimal digit, as Python's quoter formats (`%02X`). -/
def hexDigit (n : Nat) : Byte :=
  if n < 10 then Fin.ofNat (48 + n) else Fin.ofNat (55 + n)

/-- One byte's encoding under `urllib.parse.quote_plus` with `safe=''`
(the default used by `urlencode`): space becomes `+`, always-safe bytes pass
through, everything else becomes `%XX`. -/
def quoteByte (b : Byte) : List Byte :=
  if b.val = 32 then [43]
  else if alwaysSafe b then [b]
  else [37, hexDigit (b.val / 16), hexDigit (b.val % 16)]

/-- `urllib.parse.quote_plus(s, safe='')` on a byte string. -/
def quote_plus (s : List Byte) : List Byte := s.flatMap quoteByte

/-- Hexadecimal value of an ASCII byte, accepting both cases, as
`urllib.parse.unquote` does. -/
def hexVal (b : Byte) : Option Nat :=
  if 48 ≤ b.val && b.val ≤ 57 then some (b.val - 48)
  else if 65 ≤ b.val && b.val ≤ 70 then some (b.val - 55)
  else if 97 ≤ b.val && b.val ≤ 102 then some (b.val - 87)
  else none

/-- `urllib.parse.unquote_plus`: `+` decodes to space, `%hh` with two hex
digits decodes to the byte, malformed escapes pass through unchanged. -/
def unquote_plus : List Byte → List Byte
  | [] => []
  | b :: rest =>
    if b.val = 43 then 32 :: unquote_plus rest
    else if b.val = 37 then
      match _h : rest with
      | h1 :: h2 :: rest2 =>
        match hexVal h1, hexVal h2 with
        | some hi, some lo => Fin.ofNat (16 * hi + lo) :: unquote_plus rest2
        | _, _ => b :: unquote_plus rest
      | _ => b :: unquote_plus rest
    else b :: unquote_plus rest
termination_by l => l.length
decreasing_by
  all_goals simp_all [List.length_cons]
  all_goals omega

/-- `urllib.parse.urlencode` on an ordered pair list (defaults:
`quote_via=quote_plus`, `safe=''`): each pair becomes `k=v`, fields joined
by `&`. -/
def urlencode (params : List (List Byte × List Byte)) : List Byte :=
  List.intercalate [38] (params.map (fun p => quote_plus p.1 ++ 61 :: quote_plus p.2))

/-- The parameter list assembled by `build_search_url` (mcp_server.py,
lines 65–67): the three fixed parameters, then one `mask_path` per database
code in caller order. -/
def build_search_params (query : List Byte) (databases : List (List Byte)) :
    List (List Byte × List Byte) :=
  [(bytesOfString "query", query), (bytesOfString "method", bytesOfString "boolean"),
   (bytesOfString "meta", bytesOfString "/au")] ++
  databases.map (fun db_code => (bytesOfString "mask_path", db_code))

/-- `build_search_url` (mcp_server.py, lines 62–68). -/
def build_search_url (query : List Byte) (databases : List (List Byte)) : List Byte :=
  bytesOfString "https://www.austlii.edu.au/cgi-bin/sinosrch.cgi" ++
    63 :: urlencode (build_search_params query databases)

/-- The query component of a URL: everything after the first `?` (byte 63). -/
def queryPart (url : List Byte) : List Byte :=
  (url.dropWhile (fun b => b != 63)).drop 1

/-- Split a field at its first `=` (byte 61), as `str.split('=', 1)` does. -/
def splitFirstEq : List Byte → List Byte × List Byte
  | [] => ([], [])
  | b :: rest =>
    if b.val = 61 then ([], rest)
    else (b :: (splitFirstEq rest).1, (splitFirstEq rest).2)

/-- `urllib.parse.parse_qsl`: split the query string on `&`, drop fields
without `=`, percent-decode each name and value. -/
def parse_qsl (qs : List Byte) : List (List Byte × List Byte) :=
  (qs.splitOn 38).filterMap (fun f =>
    if f.any (fun b => b.val == 61) then
      some (unquote_plus (splitFirstEq f).1, unquote_plus (splitFirstEq f).2)
    else none)

/-- Bytes admissible in an HTTP URL as built here: always-safe bytes plus
the reserved punctuation this URL uses (`% & + = ? / :` and `.` `-` are
already safe). -/
def urlByteOk (b : Byte) : Bool :=
  alwaysSafe b || b.val == 37 || b.val == 38 || b.val == 43 || b.val == 61 ||
    b.val == 63 || b.val == 47 || b.val == 58

/-- One encoded field `k=v` of a query string. -/
def fieldOf (p : List Byte × List Byte) : List Byte :=
  quote_plus p.1 ++ 61 :: quote_plus p.2

lemma hexVal_hexDigit : ∀ n < 16, hexVal (hexDigit n) = some n := by decide

lemma alwaysSafe_ne : ∀ b : Byte, alwaysSafe b = true →
    b.val ≠ 43 ∧ b.val ≠ 37 ∧ b.val ≠ 38 ∧ b.val ≠ 61 ∧ b.val ≠ 63 := by decide

lemma hexDigit_bytes : ∀ n < 16,
    urlByteOk (hexDigit n) = true ∧ (hexDigit n).val ≠ 38 ∧ (hexDigit n).val ≠ 61 := by
  decide

lemma quoteByte_bytes : ∀ b : Byte, ∀ c ∈ quoteByte b,
    urlByteOk c = true ∧ c.val ≠ 38 ∧ c.val ≠ 61 := by
  intro b c hc
  unfold quoteByte at hc
  by_cases h32 : b.val = 32
  · rw [if_pos h32] at hc
    simp at hc
    subst hc
    decide
  · rw [if_neg h32] at hc
    by_cases hs : alwaysSafe b = true
    · rw [if_pos hs] at hc
      simp at hc
      subst hc
      exact ⟨by simp [urlByteOk, hs], (alwaysSafe_ne c hs).2.2.1,
        (alwaysSafe_ne c hs).2.2.2.1⟩
    · rw [if_neg hs] at hc
      have hlt : b.val < 256 := b.isLt
      have hd : b.val / 16 < 16 := by omega
      have hm : b.val % 16 < 16 := by omega
      simp only [List.mem_cons, List.not_mem_nil, or_false] at hc
      rcases hc with rfl | rfl | rfl
      · decide
      · exact hexDigit_bytes _ hd
      · exact hexDigit_bytes _ hm

lemma quote_plus_bytes (s : List Byte) : ∀ c ∈ quote_plus s,
    urlByteOk c = true ∧ c.val ≠ 38 ∧ c.val ≠ 61 := by
  intro c hc
  rcases List.mem_flatMap.mp hc with ⟨b, _, hb⟩
  exact quoteByte_bytes b c hb

lemma unquote_plus_nil : unquote_plus [] = [] := by rw [unquote_plus]

lemma unquote_plus_plusByte (rest : List Byte) :
    unquote_plus (43 :: rest) = 32 :: unquote_plus rest := by
  rw [unquote_plus.eq_def]
  simp [show ((43 : Byte)).val = 43 from rfl]

lemma unquote_plus_safe (b : Byte) (rest : List Byte) (h43 : b.val ≠ 43)
    (h37 : b.val ≠ 37) : unquote_plus (b :: rest) = b :: unquote_plus rest := by
  rw [unquote_plus.eq_def]
  simp [h43, h37]

lemma unquote_plus_escape (hi lo : Nat) (hhi : hi < 16) (hlo : lo < 16)
    (rest : List Byte) :
    unquote_plus (37 :: hexDigit hi :: hexDigit lo :: rest) =
      Fin.ofNat (16 * hi + lo) :: unquote_plus rest := by
  rw [unquote_plus.eq_def]
  simp [show ((37 : Byte)).val = 37 from rfl, hexVal_hexDigit _ hhi,
    hexVal_hexDigit _ hlo]

lemma unquote_quoteByte (b : Byte) (rest : List Byte) :
    unquote_plus (quoteByte b ++ rest) = b :: unquote_plus rest := by
  by_cases h32 : b.val = 32
  · have hb : b = (32 : Byte) := Fin.ext (by rw [h32]; rfl)
    subst hb
    rw [show quoteByte 32 = [43] from rfl, List.singleton_append,
      unquote_plus_plusByte]
  · by_cases hs : alwaysSafe b = true
    · have h43 := (alwaysSafe_ne b hs).1
      have h37 := (alwaysSafe_ne b hs).2.1
      unfold quoteByte
      rw [if_neg h32, if_pos hs, List.singleton_append,
        unquote_plus_safe b rest h43 h37]
    · have hlt : b.val < 256 := b.isLt
      have hd : b.val / 16 < 16 := by omega
      have hm : b.val % 16 < 16 := by omega
      have hfin : Fin.ofNat (16 * (b.val / 16) + b.val % 16) = b := by
        apply Fin.ext
        simp [Fin.ofNat]
        omega
      unfold quoteByte
      rw [if_neg h32, if_neg hs]
      rw [show ([37, hexDigit (b.val / 16), hexDigit (b.val % 16)] ++ rest) =
        37 :: hexDigit (b.val / 16) :: hexDigit (b.val % 16) :: rest from rfl]
      rw [unquote_plus_escape _ _ hd hm, hfin]

lemma unquote_plus_quote_plus (s : List Byte) :
    unquote_plus (quote_plus s) = s := by
  induction s with
  | nil => rw [show quote_plus [] = [] from rfl, unquote_plus_nil]
  | cons b t ih =>
    rw [quote_plus, List.flatMap_cons]
    rw [show t.flatMap quoteByte = quote_plus t from rfl]
    rw [unquote_quoteByte, ih]

lemma splitFirstEq_append (k v : List Byte) (hk : ∀ b ∈ k, b.val ≠ 61) :
    splitFirstEq (k ++ 61 :: v) = (k, v) := by
  induction k with
  | nil => simp [splitFirstEq, show ((61 : Byte)).val = 61 from rfl]
  | cons b t ih =>
    have hb : b.val ≠ 61 := hk b (by simp)
    have ih' := ih (fun x hx => hk x (List.mem_cons_of_mem b hx))
    simp [splitFirstEq, hb, ih']

lemma sep_not_mem_fieldOf (p : List Byte × List Byte) : (38 : Byte) ∉ fieldOf p := by
  intro hmem
  unfold fieldOf at hmem
  rcases List.mem_append.mp hmem with h | h
  · exact (quote_plus_bytes _ _ h).2.1 rfl
  · rcases List.mem_cons.mp h with h | h
    · exact absurd (congrArg Fin.val h) (by decide)
    · exact (quote_plus_bytes _ _ h).2.1 rfl

lemma splitOn_urlencode (params : List (List Byte × List Byte)) (h : params ≠ []) :
    (urlencode params).splitOn 38 = params.map fieldOf := by
  unfold urlencode
  rw [show (params.map fun p => quote_plus p.1 ++ 61 :: quote_plus p.2) =
        params.map fieldOf from rfl]
  exact List.splitOn_intercalate _ 38
    (fun l hl => by
      rcases List.mem_map.mp hl with ⟨p, _, rfl⟩
      exact sep_not_mem_fieldOf p)
    (by simpa using h)

lemma decode_fieldOf (p : List Byte × List Byte) :
    (if (fieldOf p).any (fun b => b.val == 61) then
        some (unquote_plus (splitFirstEq (fieldOf p)).1,
              unquote_plus (splitFirstEq (fieldOf p)).2)
      else none) = some p := by
  have hany : (fieldOf p).any (fun b => b.val == 61) = true := by
    apply List.any_eq_true.mpr
    exact ⟨61, by simp [fieldOf], by decide⟩
  rw [if_pos hany]
  unfold fieldOf
  rw [splitFirstEq_append _ _ (fun b hb => (quote_plus_bytes _ b hb).2.2),
    unquote_plus_quote_plus, unquote_plus_quote_plus]

lemma parse_qsl_urlencode (params : List (List Byte × List Byte)) (h : params ≠ []) :
    parse_qsl (urlencode params) = params := by
  unfold parse_qsl
  rw [splitOn_urlencode params h, List.filterMap_map]
  have : ∀ p ∈ params,
      ((fun f => if f.any (fun b => b.val == 61) then
          some (unquote_plus (splitFirstEq f).1, unquote_plus (splitFirstEq f).2)
        else none) ∘ fieldOf) p = some p := by
    intro p _
    exact decode_fieldOf p
  rw [List.filterMap_congr this, List.filterMap_some]

lemma base_bytes_ok :
    ∀ b ∈ bytesOfString "https://www.austlii.edu.au/cgi-bin/sinosrch.cgi",
      urlByteOk b = true := by decide

lemma base_no_qmark :
    (bytesOfString "https://www.austlii.edu.au/cgi-bin/sinosrch.cgi").dropWhile
      (fun b => b != 63) = [] := by decide

lemma queryPart_build (qs : List Byte) :
    queryPart (bytesOfString "https://www.austlii.edu.au/cgi-bin/sinosrch.cgi" ++
      63 :: qs) = qs := by
  unfold queryPart
  rw [List.dropWhile_append, base_no_qmark]
  simp [List.dropWhile]

lemma mem_intersperse_lists {s : List Byte} {xs : List (List Byte)} {a : List Byte}
    (h : a ∈ xs.intersperse s) : a = s ∨ a ∈ xs := by
  induction xs with
  | nil => simp [List.intersperse] at h
  | cons x t ih =>
    cases t with
    | nil =>
      simp [List.intersperse] at h
      exact Or.inr (by simp [h])
    | cons y t2 =>
      rw [List.intersperse_cons_cons] at h
      rcases List.mem_cons.mp h with rfl | h2
      · exact Or.inr (by simp)
      · rcases List.mem_cons.mp h2 with rfl | h3
        · exact Or.inl rfl
        · rcases ih h3 with h4 | h4
          · exact Or.inl h4
          · exact Or.inr (List.mem_cons_of_mem _ h4)

lemma urlencode_bytes (params : List (List Byte × List Byte)) :
    ∀ b ∈ urlencode params, urlByteOk b = true := by
  intro b hb
  unfold urlencode at hb
  rw [List.intercalate] at hb
  rcases List.mem_flatten.mp hb with ⟨l, hl, hbl⟩
  rcases mem_intersperse_lists hl with rfl | hl2
  · simp at hbl
    subst hbl
    decide
  · rcases List.mem_map.mp hl2 with ⟨p, _, rfl⟩
    rcases List.mem_append.mp hbl with h | h
    · exact (quote_plus_bytes _ _ h).1
    · rcases List.mem_cons.mp h with rfl | h
      · decide
      · exact (quote_plus_bytes _ _ h).1

/-- C1: `build_search_url` yields a URL whose query-parameter list decodes to
exactly one `query` parameter carrying the query text, one `method=boolean`,
one `meta=/au`, then one `mask_path` parameter per database code in the
caller's order (so zero `mask_path` parameters for the empty sequence), and
every byte of the URL is admissible in a URL, so the result is syntactically
valid for any database sequence, including the empty one. -/
theorem build_search_url_param_list (query : List Byte) (databases : List (List Byte)) :
    parse_qsl (queryPart (build_search_url query databases)) =
      (bytesOfString "query", query) ::
        (bytesOfString "method", bytesOfString "boolean") ::
          (bytesOfString "meta", bytesOfString "/au") ::
            databases.map (fun db_code => (bytesOfString "mask_path", db_code)) ∧
    ∀ b ∈ build_search_url query databases, urlByteOk b = true := by
  constructor
  · unfold build_search_url
    rw [queryPart_build, parse_qsl_urlencode _ (by simp [build_search_params])]
    rfl
  · intro b hb
    unfold build_search_url at hb
    rcases List.mem_append.mp hb with h | h
    · exact base_bytes_ok b h
    · rcases List.mem_cons.mp h with rfl | h
      · decide
      · exact urlencode_bytes _ b h

/-- The raw (still percent-encoded) value of the first query-string parameter
named `query` in a URL. -/
def rawQueryValue (url : List Byte) : Option (List Byte) :=
  (((queryPart url).splitOn 38).filterMap (fun f =>
    if unquote_plus (splitFirstEq f).1 = bytesOfString "query" then
      some (splitFirstEq f).2
    else none)).head?

/-- C5: percent-decoding the raw value of the `query` parameter of a URL
built by `build_search_url` returns the original query text exactly, for
every query byte string (spaces, `&`, `"` included): the encode/decode pair
is lossless. -/
theorem build_search_url_query_roundtrip (query : List Byte)
    (databases : List (List Byte)) :
    (rawQueryValue (build_search_url query databases)).map unquote_plus =
      some query := by
  unfold rawQueryValue build_search_url
  rw [queryPart_build, splitOn_urlencode _ (by simp [build_search_params])]
  rw [show build_search_params query databases =
    (bytesOfString "query", query) ::
      ((bytesOfString "method", bytesOfString "boolean") ::
        (bytesOfString "meta", bytesOfString "/au") ::
          databases.map (fun db_code => (bytesOfString "mask_path", db_code))) from rfl]
  rw [List.map_cons, List.filterMap_cons]
  rw [show fieldOf (bytesOfString "query", query) =
    quote_plus (bytesOfString "query") ++ 61 :: quote_plus query from rfl]
  rw [splitFirstEq_append _ _ (fun b hb => (quote_plus_bytes _ b hb).2.2)]
  rw [unquote_plus_quote_plus]
  rw [if_pos rfl]
  rw [List.head?_cons]
  simp [unquote_plus_quote_plus]

/-!
## Result normalization and search orchestration (mcp_server.py, lines 14–94)

Python values are dynamic: a raw scrape record's field may be absent (`None`),
modelled by `Option`. `str()` applied to the url value is modelled by
`pyStr`/`pyStrOpt`; note `str(None)` is the text `"None"`. The external scrape
call may raise an exception of an arbitrary type `ε`, which `Except` models.
The Python float checkpoint literals `0.3`, `0.9`, `1.0` denote the decimal
fractions `3/10`, `9/10`, `1`, modelled in `ℚ` (they are only compared, never
computed with).
-/

/-- A url value as produced by the external scraper: either already text, or
a structured URL object whose `str()` text representation is `reprText`. -/
inductive UrlValue where
  | text (s : String)
  | structured (reprText : String)
deriving DecidableEq

/-- Python `str()` on a url value. -/
def pyStr : UrlValue → String
  | .text s => s
  | .structured r => r

/-- Python `str()` on a possibly-missing url value: `str(None)` is `"None"`. -/
def pyStrOpt : Option UrlValue → String
  | none => "None"
  | some u => pyStr u

/-- A raw result record from the external scraper (spec §3, RawResultRecord):
`title` text, `url` text-or-URL-typed, `metadata` optional text. A missing
field holds `none`. -/
structure RawResultRecord where
  title : Option String
  url : Option UrlValue
  metadata : Option String
deriving DecidableEq

/-- `SearchResultItem` (mcp_server.py, lines 15–18). -/
structure SearchResultItem where
  title : String
  url : String
  metadata : Option String := none
deriving DecidableEq

/-- A pydantic validation failure raised by `SearchResultItem(...)`. -/
inductive ValidationError where
  | missingTitle
deriving DecidableEq

/-- The pydantic constructor call `SearchResultItem(title=…, url=…, metadata=…)`:
`title : str` is required, so passing `None` raises a validation error;
`url` was already coerced through `str()` and is always text; `metadata` is
`Optional[str]`. -/
def mkSearchResultItem (title : Option String) (url : String)
    (metadata : Option String) : Except ValidationError SearchResultItem :=
  match title with
  | none => .error .missingTitle
  | some t => .ok ⟨t, url, metadata⟩

/-- The normalization loop of `search_austlii` (mcp_server.py, lines 55–60):
each raw item becomes `SearchResultItem(title=item.title, url=str(item.url),
metadata=item.metadata)`, in input order; the first validation failure aborts
the loop and propagates. -/
def normalizeResults (results : List RawResultRecord) :
    Except ValidationError (List SearchResultItem) :=
  results.mapM (fun item =>
    mkSearchResultItem item.title (pyStrOpt item.url) item.metadata)

/-- A failure escaping a search tool call: the scrape call's own exception
(carried unchanged) or a pydantic validation error. -/
inductive SearchFailure (ε : Type) where
  | scrapeError (e : ε)
  | validationError (v : ValidationError)
deriving DecidableEq

/-- `search_austlii` (mcp_server.py, lines 50–60), parameterized by the
external scrape function, which may fail with an exception of type `ε`. -/
def search_austlii {ε : Type}
    (scrape : String → List String → Except ε (List RawResultRecord))
    (query : String) (databases : List String) :
    Except (SearchFailure ε) (List SearchResultItem) :=
  match scrape query databases with
  | .error e => .error (.scrapeError e)
  | .ok results =>
    match normalizeResults results with
    | .error v => .error (.validationError v)
    | .ok output => .ok output

/-- One event emitted to the MCP context (the progress sink). -/
inductive Emitted where
  | info (message : String)
  | progress (fraction : ℚ) (total : ℚ) (message : String)
deriving DecidableEq

/-- `search_with_progress` (mcp_server.py, lines 71–94), returning the ordered
trace of emitted events alongside the outcome. Events already emitted when a
failure occurs stay in the trace: nothing is rolled back. -/
def search_with_progress {ε : Type}
    (scrape : String → List String → Except ε (List RawResultRecord))
    (query : String) (databases : List String) :
    List Emitted × Except (SearchFailure ε) (List SearchResultItem) :=
  match scrape query databases with
  | .error e =>
    ([Emitted.info "Starting AustLII search...",
      Emitted.progress (3/10) 1 "Scraping"],
     .error (.scrapeError e))
  | .ok results =>
    match normalizeResults results with
    | .error v =>
      ([Emitted.info "Starting AustLII search...",
        Emitted.progress (3/10) 1 "Scraping",
        Emitted.progress (9/10) 1 "Packaging"],
       .error (.validationError v))
    | .ok out =>
      ([Emitted.info "Starting AustLII search...",
        Emitted.progress (3/10) 1 "Scraping",
        Emitted.progress (9/10) 1 "Packaging",
        Emitted.progress 1 1 "Done"],
       .ok out)

/-- The fractions of the progress events of a trace, in emission order. -/
def progressFractions (evts : List Emitted) : List ℚ :=
  evts.filterMap (fun e => match e with
    | .progress f _ _ => some f
    | _ => none)

/-- The item produced from a well-formed raw record. -/
def normItem (r : RawResultRecord) : SearchResultItem :=
  { title := r.title.getD "", url := pyStrOpt r.url, metadata := r.metadata }

lemma normalizeResults_wf (rs : List RawResultRecord)
    (hwf : ∀ r ∈ rs, r.title.isSome) :
    normalizeResults rs = Except.ok (rs.map normItem) := by
  induction rs with
  | nil => rfl
  | cons r t ih =>
    obtain ⟨t0, ht⟩ := Option.isSome_iff_exists.mp (hwf r (by simp))
    rw [normalizeResults, List.mapM_cons]
    rw [show mkSearchResultItem r.title (pyStrOpt r.url) r.metadata =
      Except.ok { title := t0, url := pyStrOpt r.url, metadata := r.metadata }
      from by rw [ht]; rfl]
    rw [show (t.mapM fun item =>
      mkSearchResultItem item.title (pyStrOpt item.url) item.metadata) =
      normalizeResults t from rfl]
    rw [ih (fun x hx => hwf x (List.mem_cons_of_mem _ hx))]
    have ht' : r.title.getD "" = t0 := by rw [ht]; rfl
    simp only [List.map_cons, normItem, ht']
    rfl

/-- C2: on well-formed raw records (title and url present) the normalization
performed by `search_austlii` succeeds and returns a sequence of the same
length in the same order, where each item copies the title verbatim, carries
the `str()` text representation of the raw url, and copies the optional
metadata verbatim. -/
theorem search_austlii_normalization {ε : Type}
    (scrape : String → List String → Except ε (List RawResultRecord))
    (query : String) (databases : List String) (rs : List RawResultRecord)
    (hok : scrape query databases = Except.ok rs)
    (hwf : ∀ r ∈ rs, r.title.isSome ∧ r.url.isSome) :
    ∃ out, search_austlii scrape query databases = Except.ok out ∧
      out.length = rs.length ∧
      ∀ (i : Nat) (r : RawResultRecord) (item : SearchResultItem),
        rs[i]? = some r → out[i]? = some item →
        r.title = some item.title ∧ item.url = pyStrOpt r.url ∧
          item.metadata = r.metadata := by
  have hn := normalizeResults_wf rs (fun r hr => (hwf r hr).1)
  refine ⟨rs.map normItem, ?_, ?_, ?_⟩
  · unfold search_austlii
    simp only [hok, hn]
  · exact List.length_map _ _
  · intro i r item hr hitem
    rw [List.getElem?_map, hr] at hitem
    simp only [Option.map_some'] at hitem
    obtain ⟨t0, ht⟩ := Option.isSome_iff_exists.mp
      (hwf r (List.getElem?_mem hr)).1
    cases hitem
    refine ⟨?_, rfl, rfl⟩
    rw [show (normItem r).title = r.title.getD "" from rfl, ht]
    rfl

/-- Witness for C2 at the spec's concrete scenario: one record titled
"Mabo v Queensland" with a structured url. -/
theorem search_austlii_normalization_witness :
    (∀ r ∈ [({ title := some "Mabo v Queensland",
               url := some (UrlValue.structured "https://example/1"),
               metadata := none } : RawResultRecord)],
        r.title.isSome ∧ r.url.isSome) ∧
    ∃ out, search_austlii
        (fun _ _ => (Except.ok
          [({ title := some "Mabo v Queensland",
              url := some (UrlValue.structured "https://example/1"),
              metadata := none } : RawResultRecord)] :
            Except Unit (List RawResultRecord)))
        "mabo" ["au/cases/cth/HCA"] = Except.ok out ∧
      out.length = 1 ∧
      ∀ (i : Nat) (r : RawResultRecord) (item : SearchResultItem),
        ([({ title := some "Mabo v Queensland",
             url := some (UrlValue.structured "https://example/1"),
             metadata := none } : RawResultRecord)])[i]? = some r →
        out[i]? = some item →
        r.title = some item.title ∧ item.url = pyStrOpt r.url ∧
          item.metadata = r.metadata := by
  constructor
  · decide
  · exact search_austlii_normalization
      (fun _ _ => (Except.ok
        [({ title := some "Mabo v Queensland",
            url := some (UrlValue.structured "https://example/1"),
            metadata := none } : RawResultRecord)] :
          Except Unit (List RawResultRecord)))
      "mabo" ["au/cases/cth/HCA"]
      [({ title := some "Mabo v Queensland",
          url := some (UrlValue.structured "https://example/1"),
          metadata := none } : RawResultRecord)]
      rfl (by decide)

/-- C3: on every successful invocation, `search_with_progress` emits exactly
the informational "Starting AustLII search..." message, then progress 3/10
"Scraping", 9/10 "Packaging", 1 "Done" (each with total 1), in this order,
with non-decreasing fractions. -/
theorem search_with_progress_success_events {ε : Type}
    (scrape : String → List String → Except ε (List RawResultRecord))
    (query : String) (databases : List String) (out : List SearchResultItem)
    (hok : (search_with_progress scrape query databases).2 = Except.ok out) :
    (search_with_progress scrape query databases).1 =
      [Emitted.info "Starting AustLII search...",
       Emitted.progress (3/10) 1 "Scraping",
       Emitted.progress (9/10) 1 "Packaging",
       Emitted.progress 1 1 "Done"] ∧
    List.Chain' (· ≤ ·)
      (progressFractions (search_with_progress scrape query databases).1) := by
  unfold search_with_progress at hok ⊢
  rcases hs : scrape query databases with e | results
  · simp only [hs] at hok
    exact absurd hok (by simp)
  · rcases hn : normalizeResults results with v | o
    · simp only [hs, hn] at hok
      exact absurd hok (by simp)
    · simp only [hs, hn]
      refine ⟨trivial, ?_⟩
      rw [show progressFractions
        [Emitted.info "Starting AustLII search...",
         Emitted.progress (3/10) 1 "Scraping",
         Emitted.progress (9/10) 1 "Packaging",
         Emitted.progress 1 1 "Done"] = [(3/10 : ℚ), 9/10, 1] from rfl]
      norm_num [List.chain'_cons, List.chain'_singleton]

/-- Witness for C3: a successful invocation with an empty scrape result. -/
theorem search_with_progress_success_events_witness :
    ((search_with_progress
        (fun _ _ => (Except.ok [] : Except Unit (List RawResultRecord)))
        "native title" ["au/cases/cth/HCA"]).2 =
      Except.ok ([] : List SearchResultItem)) ∧
    ((search_with_progress
        (fun _ _ => (Except.ok [] : Except Unit (List RawResultRecord)))
        "native title" ["au/cases/cth/HCA"]).1 =
      [Emitted.info "Starting AustLII search...",
       Emitted.progress (3/10) 1 "Scraping",
       Emitted.progress (9/10) 1 "Packaging",
       Emitted.progress 1 1 "Done"] ∧
     List.Chain' (· ≤ ·)
       (progressFractions (search_with_progress
         (fun _ _ => (Except.ok [] : Except Unit (List RawResultRecord)))
         "native title" ["au/cases/cth/HCA"]).1)) :=
  ⟨rfl, search_with_progress_success_events _ "native title"
    ["au/cases/cth/HCA"] [] rfl⟩

/-- C4: when the scrape call fails, the trace ends at the 3/10 "Scraping"
event — no "Packaging", no "Done" — the already-emitted events remain, and
the scrape failure propagates unchanged. -/
theorem search_with_progress_failure_events {ε : Type}
    (scrape : String → List String → Except ε (List RawResultRecord))
    (query : String) (databases : List String) (e : ε)
    (herr : scrape query databases = Except.error e) :
    search_with_progress scrape query databases =
      ([Emitted.info "Starting AustLII search...",
        Emitted.progress (3/10) 1 "Scraping"],
       Except.error (SearchFailure.scrapeError e)) := by
  unfold search_with_progress
  simp only [herr]

/-- Witness for C4: a scrape that raises a network error. -/
theorem search_with_progress_failure_events_witness :
    ((fun (_ : String) (_ : List String) =>
        (Except.error "network unreachable" :
          Except String (List RawResultRecord))) "q" ["db"] =
      Except.error "network unreachable") ∧
    search_with_progress
        (fun _ _ => (Except.error "network unreachable" :
          Except String (List RawResultRecord))) "q" ["db"] =
      ([Emitted.info "Starting AustLII search...",
        Emitted.progress (3/10) 1 "Scraping"],
       Except.error (SearchFailure.scrapeError "network unreachable")) :=
  ⟨rfl, search_with_progress_failure_events _ "q" ["db"] _ rfl⟩

/-- C7: for every query, database sequence and scrape behavior (success or
failure), `search_with_progress` returns exactly the same outcome as
`search_austlii`; the two differ only in the emitted progress events. -/
theorem search_with_progress_refines_search_austlii {ε : Type}
    (scrape : String → List String → Except ε (List RawResultRecord))
    (query : String) (databases : List String) :
    (search_with_progress scrape query databases).2 =
      search_austlii scrape query databases := by
  unfold search_with_progress search_austlii
  rcases hs : scrape query databases with e | results
  · simp only [hs]
  · rcases hn : normalizeResults results with v | o
    · simp only [hs, hn]
    · simp only [hs, hn]

/-- C6 counterexample: a raw record missing its required `url` field is NOT
rejected with a validation error. `str(None)` coerces the missing url to the
text "None", `SearchResultItem` validates it as an ordinary string, and
`search_austlii` returns a full (non-error) result sequence. -/
theorem missing_url_not_rejected :
    search_austlii
      (fun _ _ => (Except.ok
        [({ title := some "Mabo v Queensland", url := none,
            metadata := none } : RawResultRecord)] :
          Except Unit (List RawResultRecord)))
      "mabo" ["au/cases/cth/HCA"] =
    Except.ok [({ title := "Mabo v Queensland", url := "None",
                  metadata := none } : SearchResultItem)] := rfl

lemma normalizeResults_missing_title (rs : List RawResultRecord)
    (h : ∃ r ∈ rs, r.title = none) :
    normalizeResults rs = Except.error ValidationError.missingTitle := by
  induction rs with
  | nil => simp at h
  | cons r t ih =>
    rw [normalizeResults, List.mapM_cons]
    rcases h with ⟨x, hx, hxt⟩
    rcases List.mem_cons.mp hx with rfl | hxm
    · rw [show mkSearchResultItem x.title (pyStrOpt x.url) x.metadata =
        Except.error ValidationError.missingTitle from by rw [hxt]; rfl]
      rfl
    · cases hr : r.title with
      | none => rfl
      | some t0 =>
        rw [show (t.mapM fun item =>
          mkSearchResultItem item.title (pyStrOpt item.url) item.metadata) =
          normalizeResults t from rfl]
        rw [ih ⟨x, hxm, hxt⟩]
        rfl

/-- C6 (amended): a raw record missing the required `title` field makes both
search operations fail with a pydantic validation error that propagates to
the caller; no partial or default result sequence is returned. (A record
missing only `url` is instead silently coerced to the text "None" — see the
counterexample `missing_url_not_rejected`.) -/
theorem missing_title_validation_error {ε : Type}
    (scrape : String → List String → Except ε (List RawResultRecord))
    (query : String) (databases : List String) (rs : List RawResultRecord)
    (hok : scrape query databases = Except.ok rs)
    (hbad : ∃ r ∈ rs, r.title = none) :
    search_austlii scrape query databases =
      Except.error (SearchFailure.validationError ValidationError.missingTitle) ∧
    (search_with_progress scrape query databases).2 =
      Except.error (SearchFailure.validationError ValidationError.missingTitle) := by
  have hn := normalizeResults_missing_title rs hbad
  constructor
  · unfold search_austlii
    simp only [hok, hn]
  · unfold search_with_progress
    simp only [hok, hn]

/-- Witness for the amended C6: one record with a missing title. -/
theorem missing_title_validation_error_witness :
    (∃ r ∈ [({ title := none, url := some (UrlValue.text "https://example/1"),
               metadata := none } : RawResultRecord)], r.title = none) ∧
    (search_austlii
        (fun _ _ => (Except.ok
          [({ title := none, url := some (UrlValue.text "https://example/1"),
              metadata := none } : RawResultRecord)] :
            Except Unit (List RawResultRecord)))
        "mabo" [] =
      Except.error (SearchFailure.validationError ValidationError.missingTitle) ∧
     (search_with_progress
        (fun _ _ => (Except.ok
          [({ title := none, url := some (UrlValue.text "https://example/1"),
              metadata := none } : RawResultRecord)] :
            Except Unit (List RawResultRecord)))
        "mabo" []).2 =
      Except.error (SearchFailure.validationError ValidationError.missingTitle)) := by
  constructor
  · exact ⟨{ title := none, url := some (UrlValue.text "https://example/1"),
             metadata := none }, by simp, rfl⟩
  · exact missing_title_validation_error
      (fun _ _ => (Except.ok
        [({ title := none, url := some (UrlValue.text "https://example/1"),
            metadata := none } : RawResultRecord)] :
          Except Unit (List RawResultRecord)))
      "mabo" []
      [({ title := none, url := some (UrlValue.text "https://example/1"),
          metadata := none } : RawResultRecord)]
      rfl ⟨{ title := none, url := some (UrlValue.text "https://example/1"),
             metadata := none }, by simp, rfl⟩

/-!
## Database catalog and tool dispatch (mcp_server.py, lines 20–48)

`database_map.py` is external to the sources verified here, so the catalog
constant is modelled from the spec. No code path in the module assigns to any
global, which the explicit state threading below makes checkable.
-/

/-- Modelled from the spec: the shape of one entry of the external
`database_map.DATABASE_TOOLS_LIST` catalog (spec §3, DatabaseDescriptor):
code, human-readable name, description, jurisdiction/type classification. -/
structure DatabaseDescriptor where
  code : String
  name : String
  description : String
  jurisdiction : String
deriving DecidableEq

/-- Modelled from the spec: `database_map.DATABASE_TOOLS_LIST`, the immutable
Database Catalog loaded once at process start; sample entries carrying the
database codes the spec names. -/
def DATABASE_TOOLS_LIST : List DatabaseDescriptor :=
  [{ code := "au/cases/cth/HCA", name := "High Court of Australia",
     description := "Decisions of the High Court of Australia",
     jurisdiction := "cth" },
   { code := "au/legis/cth/consol_act",
     name := "Commonwealth Consolidated Acts",
     description := "Consolidated Acts of the Commonwealth",
     jurisdiction := "cth" }]

/-- The process state visible to the tools: only the read-only catalog. -/
structure ServerState where
  catalog : List DatabaseDescriptor
deriving DecidableEq

/-- The state at process start, right after the module-level catalog import. -/
def initState : ServerState := { catalog := DATABASE_TOOLS_LIST }

/-- `list_databases` (mcp_server.py, lines 31–48): returns the catalog. -/
def list_databases (s : ServerState) : List DatabaseDescriptor :=
  s.catalog

/-- One tool invocation on the server. -/
inductive ToolCall where
  | listDatabases
  | searchAustlii (query : String) (databases : List String)
  | searchWithProgress (query : String) (databases : List String)
  | buildSearchUrl (query : List Byte) (databases : List (List Byte))

/-- A tool invocation's outcome. -/
inductive ToolResult (ε : Type) where
  | databases (catalog : List DatabaseDescriptor)
  | results (r : Except (SearchFailure ε) (List SearchResultItem))
  | resultsWithTrace (trace : List Emitted)
      (r : Except (SearchFailure ε) (List SearchResultItem))
  | url (u : List Byte)

/-- Dispatch one tool call. The module never assigns to a global, so every
tool returns the process state unchanged. -/
def runTool {ε : Type}
    (scrape : String → List String → Except ε (List RawResultRecord))
    (s : ServerState) : ToolCall → ServerState × ToolResult ε
  | .listDatabases => (s, .databases (list_databases s))
  | .searchAustlii q dbs => (s, .results (search_austlii scrape q dbs))
  | .searchWithProgress q dbs =>
    (s, .resultsWithTrace (search_with_progress scrape q dbs).1
          (search_with_progress scrape q dbs).2)
  | .buildSearchUrl q dbs => (s, .url (build_search_url q dbs))

/-- Run a sequence of tool calls, threading the state. -/
def runTools {ε : Type}
    (scrape : String → List String → Except ε (List RawResultRecord))
    (s : ServerState) : List ToolCall → ServerState
  | [] => s
  | c :: cs => runTools scrape (runTool scrape s c).1 cs

/-- C8: `list_databases` invoked twice within one process lifetime — with any
other tool invocations in between — returns identical content both times:
the full catalog as the same ordered descriptor sequence, with no inputs and
no error case. -/
theorem list_databases_immutable_content {ε : Type}
    (scrape : String → List String → Except ε (List RawResultRecord))
    (calls : List ToolCall) :
    (runTool scrape (runTools scrape initState calls)
        ToolCall.listDatabases).2 =
      (runTool scrape initState ToolCall.listDatabases).2 ∧
    (runTool scrape initState ToolCall.listDatabases).2 =
      ToolResult.databases DATABASE_TOOLS_LIST := by
  have hfst : ∀ (s : ServerState) (c : ToolCall), (runTool scrape s c).1 = s := by
    intro s c
    cases c <;> rfl
  have hstate : ∀ (cs : List ToolCall) (s : ServerState),
      runTools scrape s cs = s := by
    intro cs
    induction cs with
    | nil => intro s; rfl
    | cons c t ih =>
      intro s
      rw [runTools, hfst, ih]
  rw [hstate]
  exact ⟨rfl, rfl⟩

/-!
## Diagnostic endpoints (mcp_server.py, lines 96–108)
-/

/-- An HTTP request, with content the diagnostic endpoints never read. -/
structure Request where
  path : String
  headers : List (String × String)
  body : String
deriving DecidableEq

/-- The JSON payload of the health endpoint. -/
structure HealthPayload where
  status : String
  name : String
  transport : String
deriving DecidableEq

/-- The JSON payload of the info endpoint. -/
structure InfoPayload where
  message : String
  health : String
  transport : String
  hint : String
deriving DecidableEq

/-- The server identity (mcp_server.py, line 21: `FastMCP("Olexi MCP Server")`). -/
def mcpName : String := "Olexi MCP Server"

/-- `mcp_health` (mcp_server.py, lines 97–99). -/
def mcp_health (_ : Request) : HealthPayload :=
  { status := "ok", name := mcpName, transport := "streamable-http" }

/-- `mcp_info` (mcp_server.py, lines 101–108). -/
def mcp_info (_ : Request) : InfoPayload :=
  { message := "Olexi MCP Streamable HTTP endpoint",
    health := "/mcp/health",
    transport := "streamable-http",
    hint := "Your MCP host should POST to /mcp for the protocol handshake." }

/-- C9: for every request, the health endpoint returns exactly
status "ok" / the server identity / the declared transport, and the info
endpoint returns its fixed message, health path, transport and hint; both
ignore the request entirely — any two requests get identical responses — so
they are pure functions of process-start-time constants. -/
theorem diagnostics_fixed_payloads (req req' : Request) :
    mcp_health req = { status := "ok", name := mcpName,
                       transport := "streamable-http" } ∧
    mcp_info req =
      { message := "Olexi MCP Streamable HTTP endpoint",
        health := "/mcp/health",
        transport := "streamable-http",
        hint := "Your MCP host should POST to /mcp for the protocol handshake." } ∧
    mcp_health req = mcp_health req' ∧
    mcp_info req = mcp_info req' :=
  ⟨rfl, rfl, rfl, rfl⟩

/-!
## The `olexi://databases` resource (mcp_server.py, lines 24–28)

`list_databases_resource` returns `json.dumps(DATABASE_TOOLS_LIST, indent=2)`.
The Python `json` library is external; `jsonDumpsCatalog` models `json.dumps`
with `indent=2` on a list of flat string-valued records, and `parseJsonCatalog`
models `json.loads` specialized to such documents (surrogate pairs are not
recombined; the documents parsed here are ASCII). Text is handled as
`List Char` to keep the serializer and the reader inductive.
-/

/-- Lower-case hexadecimal digit, as Python's `json` emits in `\uXXXX`. -/
def hexCharLower (n : Nat) : Char :=
  if n < 10 then Char.ofNat (48 + n) else Char.ofNat (87 + n)

/-- A `\uXXXX` escape for a code unit. -/
def uEscape (n : Nat) : List Char :=
  ['\\', 'u', hexCharLower (n / 4096 % 16), hexCharLower (n / 256 % 16),
   hexCharLower (n / 16 % 16), hexCharLower (n % 16)]

/-- Python `json.dumps` escaping of one character (default `ensure_ascii`):
quote, backslash and control characters get escapes, other printable ASCII
passes through, anything else becomes `\uXXXX` (surrogate pair above the
basic plane). -/
def escChar (c : Char) : List Char :=
  if c = '"' then ['\\', '"']
  else if c = '\\' then ['\\', '\\']
  else if c = '\n' then ['\\', 'n']
  else if c = '\r' then ['\\', 'r']
  else if c = '\t' then ['\\', 't']
  else if c.toNat = 8 then ['\\', 'b']
  else if c.toNat = 12 then ['\\', 'f']
  else if c.toNat < 32 then uEscape c.toNat
  else if c.toNat < 127 then [c]
  else if c.toNat < 65536 then uEscape c.toNat
  else uEscape (55296 + (c.toNat - 65536) / 1024) ++
    uEscape (56320 + (c.toNat - 65536) % 1024)

/-- A JSON string literal for `s`. -/
def dumpString (s : String) : List Char :=
  '"' :: (s.data.flatMap escChar ++ ['"'])

/-- One catalog entry as `json.dumps(…, indent=2)` prints it inside the
top-level array (keys indented four spaces, closing brace two). -/
def serializeDesc (d : DatabaseDescriptor) : List Char :=
  ("\x7b\n    ").data ++ dumpString "code" ++ (": ").data ++ dumpString d.code ++
  (",\n    ").data ++ dumpString "name" ++ (": ").data ++ dumpString d.name ++
  (",\n    ").data ++ dumpString "description" ++ (": ").data ++
    dumpString d.description ++
  (",\n    ").data ++ dumpString "jurisdiction" ++ (": ").data ++
    dumpString d.jurisdiction ++
  ("\n  \x7d").data

/-- `json.dumps(catalog, indent=2)`: `[]` for the empty list, otherwise the
entries joined by `,` and newline at indent two. -/
def jsonDumpsCatalog : List DatabaseDescriptor → List Char
  | [] => ("[]").data
  | d :: ds =>
    ("[\n  ").data ++
      List.intercalate ((",\n  ").data) ((d :: ds).map serializeDesc) ++
      ("\n]").data

/-- `list_databases_resource` (mcp_server.py, lines 24–28): the JSON text of
the catalog. -/
def list_databases_resource (s : ServerState) : List Char :=
  jsonDumpsCatalog s.catalog

/-- JSON whitespace. -/
def isJsonWs (c : Char) : Bool :=
  c = ' ' || c = '\n' || c = '\t' || c = '\r'

/-- Skip leading whitespace. -/
def skipWs (s : List Char) : List Char := s.dropWhile isJsonWs

/-- Hexadecimal value of a character, either case. -/
def hexCharVal (c : Char) : Option Nat :=
  if 48 ≤ c.toNat ∧ c.toNat ≤ 57 then some (c.toNat - 48)
  else if 97 ≤ c.toNat ∧ c.toNat ≤ 102 then some (c.toNat - 87)
  else if 65 ≤ c.toNat ∧ c.toNat ≤ 70 then some (c.toNat - 55)
  else none

/-- The character named by a JSON short escape. -/
def unescChar (c : Char) : Option Char :=
  if c = '"' then some '"'
  else if c = '\\' then some '\\'
  else if c = '/' then some '/'
  else if c = 'b' then some (Char.ofNat 8)
  else if c = 'f' then some (Char.ofNat 12)
  else if c = 'n' then some '\n'
  else if c = 'r' then some '\r'
  else if c = 't' then some '\t'
  else none

/-- Read a JSON string body up to its closing quote, decoding escapes;
returns the content and the remaining input. -/
def parseStringBody : List Char → Option (List Char × List Char)
  | [] => none
  | '"' :: rest => some ([], rest)
  | '\\' :: 'u' :: h1 :: h2 :: h3 :: h4 :: rest =>
    (match hexCharVal h1, hexCharVal h2, hexCharVal h3, hexCharVal h4 with
     | some a, some b, some c, some d =>
       (parseStringBody rest).map (fun p =>
         (Char.ofNat (4096 * a + 256 * b + 16 * c + d) :: p.1, p.2))
     | _, _, _, _ => none)
  | '\\' :: e :: rest =>
    (match unescChar e with
     | some u => (parseStringBody rest).map (fun p => (u :: p.1, p.2))
     | none => none)
  | c :: rest => (parseStringBody rest).map (fun p => (c :: p.1, p.2))

/-- Read a JSON string token (leading whitespace allowed). -/
def parseJsonString (s : List Char) : Option (List Char × List Char) :=
  match skipWs s with
  | '"' :: rest => parseStringBody rest
  | _ => none

/-- Read `"key": "value"` and return the value. -/
def parsePair (key : String) (s : List Char) :
    Option (List Char × List Char) := do
  let (k, r1) ← parseJsonString s
  if k = key.data then
    match skipWs r1 with
    | ':' :: r2 => parseJsonString r2
    | _ => none
  else none

/-- Read a comma token. -/
def parseComma (s : List Char) : Option (List Char) :=
  match skipWs s with
  | ',' :: rest => some rest
  | _ => none

/-- Read one catalog-entry object. -/
def parseDesc (s : List Char) : Option (DatabaseDescriptor × List Char) := do
  let r0 ← (match skipWs s with
    | '\x7b' :: rest => some rest
    | _ => none)
  let (code, r1) ← parsePair "code" r0
  let r2 ← parseComma r1
  let (name, r3) ← parsePair "name" r2
  let r4 ← parseComma r3
  let (description, r5) ← parsePair "description" r4
  let r6 ← parseComma r5
  let (jurisdiction, r7) ← parsePair "jurisdiction" r6
  let r8 ← (match skipWs r7 with
    | '\x7d' :: rest => some rest
    | _ => none)
  some (⟨String.mk code, String.mk name, String.mk description,
    String.mk jurisdiction⟩, r8)

/-- Read a comma-separated sequence of catalog-entry objects. -/
def parseItems : Nat → List Char → Option (List DatabaseDescriptor × List Char)
  | 0, _ => none
  | fuel + 1, s => do
    let (d, r) ← parseDesc s
    match parseComma r with
    | some r2 => do
      let (ds, r3) ← parseItems fuel r2
      some (d :: ds, r3)
    | none => some ([d], r)

/-- Parse a whole catalog document: a JSON array of catalog-entry objects
and nothing but trailing whitespace. -/
def parseJsonCatalog (s : List Char) : Option (List DatabaseDescriptor) :=
  match skipWs s with
  | '[' :: rest =>
    (match skipWs rest with
     | ']' :: rest2 => if (skipWs rest2).isEmpty then some [] else none
     | _ =>
       match parseItems (s.length + 1) rest with
       | some (ds, r) =>
         (match skipWs r with
          | ']' :: r3 => if (skipWs r3).isEmpty then some ds else none
          | _ => none)
       | none => none)
  | _ => none

/-- C10: parsing the text payload of the `olexi://databases` resource as JSON
yields exactly the ordered descriptor sequence the `list_databases` tool
returns: the resource is a faithful serialization of the tool's output. -/
theorem databases_resource_roundtrip :
    parseJsonCatalog (list_databases_resource initState) =
      some (list_databases initState) := by decide
